import Mathlib

/-!
Shallow embedding of the annotation-editing engine of `CaseAnnotations`
(`src/unnamed/part_001`) together with the annotation data model
(`src/unnamed/part_000`).

Conventions of the embedding:
* JavaScript numbers are embedded as exact rationals (`ℚ`); none of the
  verified algorithms depends on rounding.  The one place where IEEE special
  values matter (division by a zero-width bounding box in `toNorm`) is
  embedded separately with an explicit `JSNum` type carrying `nan` and the
  infinities.
* `Math.sqrt` appears in the source only inside comparisons of the shape
  `sqrt v < t` / `sqrt v > t` with `t > 0` and `v ≥ 0`; those comparisons are
  embedded as `v < t*t` / `v > t*t`, which is equivalent because `sqrt` is
  monotone on nonnegatives.  The functions carrying this embedding are the
  squared-distance variants (`distanceToLineSq`, `hypotSq`).
* React state updates inside one handler are batched and functional, so a
  handler is embedded as a pure function from the editor state to the editor
  state.  Pointer events are given by their container-local coordinates
  (`lx`, `ly`) and their normalized coordinates (`nx`, `ny`), the values the
  source computes from `e.clientX`/`e.clientY` via the DOM.
* Freshly generated ids (`ann_${Date.now()}_...`) are nondeterministic and
  are passed as an explicit `freshId` argument.
-/

namespace CaseAnnotations

/-- A normalized point, as stored in `points` of a pen annotation. -/
structure Pt where
  x : ℚ
  y : ℚ
deriving DecidableEq, Repr

/-- The annotation sum type from `src/unnamed/part_000`
(`PenAnnotation | RectAnnotation | ArrowAnnotation | TextAnnotation`),
each variant sharing `id`, `color`, `size`, `linkedFieldId`. -/
inductive Annotation where
  | pen (id : String) (points : List Pt) (color : String) (size : ℚ)
      (linkedFieldId : Option String)
  | rect (id : String) (x y width height : ℚ) (color : String) (size : ℚ)
      (linkedFieldId : Option String)
  | arrow (id : String) (x1 y1 x2 y2 : ℚ) (color : String) (size : ℚ)
      (linkedFieldId : Option String)
  | text (id : String) (x y : ℚ) (text : String) (color : String) (size : ℚ)
      (linkedFieldId : Option String)
deriving DecidableEq, Repr

/-- The shared `id` field. -/
def Annotation.id : Annotation → String
  | .pen i _ _ _ _ => i
  | .rect i _ _ _ _ _ _ _ => i
  | .arrow i _ _ _ _ _ _ _ => i
  | .text i _ _ _ _ _ _ => i

/-- The tools of `ToolType`. -/
inductive ToolType where
  | select | pen | rect | arrow | text | erase
deriving DecidableEq, Repr

/-- Resize corners of a selected rectangle. -/
inductive Corner where
  | nw | ne | sw | se
deriving DecidableEq, Repr

/-- `dragRef.mode`; the `resizeRect` mode carries its `corner`. -/
inductive DragMode where
  | move
  | resizeRect (corner : Corner)
  | arrowStart
  | arrowEnd
deriving DecidableEq, Repr

/-- The `dragRef` payload (`mode`, `id`, `prevX`, `prevY`). -/
structure DragRef where
  mode : DragMode
  id : String
  prevX : ℚ
  prevY : ℚ
deriving DecidableEq, Repr

/-- The `drawing` state.  The source stores a record with optional fields;
only these shapes are ever constructed: `pen` is seeded with a point list at
pointer-down, `rect`/`arrow` always carry `currentX`/`currentY`. -/
inductive Drawing where
  | pen (startX startY : ℚ) (points : List Pt)
  | rect (startX startY currentX currentY : ℚ)
  | arrow (startX startY currentX currentY : ℚ)
deriving DecidableEq, Repr

/-- The editor state: the `useState`/`useRef` cells of `CaseAnnotations`
together with the `annotations` prop (kept in sync through `onChange`). -/
structure EditorState where
  tool : ToolType
  color : String
  size : ℚ
  selectedId : Option String
  editingTextId : Option String
  drawing : Option Drawing
  undoStack : List (List Annotation)
  redoStack : List (List Annotation)
  isDragging : Bool
  dragRef : Option DragRef
  baseImage : Option String
  annotations : List Annotation
deriving DecidableEq, Repr

/-- `clamp(v, min, max) = Math.max(min, Math.min(max, v))`. -/
def clamp (v mn mx : ℚ) : ℚ := max mn (min mx v)

/-- `pushHistory(next)`: push the current set on the undo stack, clear the
redo stack, apply `next`. -/
def pushHistory (s : EditorState) (next : List Annotation) : EditorState :=
  { s with
    undoStack := s.undoStack ++ [s.annotations]
    redoStack := []
    annotations := next }

/-- `undo()`: no-op on an empty stack; otherwise pop the top snapshot, push
the current set on the redo stack, and restore the popped snapshot. -/
def undo (s : EditorState) : EditorState :=
  match s.undoStack.getLast? with
  | none => s
  | some prev =>
    { s with
      redoStack := s.redoStack ++ [s.annotations]
      annotations := prev
      undoStack := s.undoStack.dropLast }

/-- `redo()`: symmetric to `undo`. -/
def redo (s : EditorState) : EditorState :=
  match s.redoStack.getLast? with
  | none => s
  | some next =>
    { s with
      undoStack := s.undoStack ++ [s.annotations]
      annotations := next
      redoStack := s.redoStack.dropLast }

/-- `clearAll()`. -/
def clearAll (s : EditorState) : EditorState :=
  if s.annotations = [] then s
  else { pushHistory s [] with selectedId := none, editingTextId := none }

/-- The base-image file input `onChange` handler, success path: store the
new data URL, clear the annotations and the selection.  (The undo and redo
stacks are not touched by this handler.) -/
def loadImage (s : EditorState) (dataUrl : String) : EditorState :=
  { s with
    baseImage := some dataUrl
    annotations := []
    selectedId := none
    editingTextId := none }

/-! ### Geometry: `imageDims`, `toNorm`, `fromNorm`, `distanceToLine` -/

/-- A DOM bounding rect as returned by `getBoundingClientRect`. -/
structure DomRect where
  left : ℚ
  top : ℚ
  width : ℚ
  height : ℚ
deriving DecidableEq, Repr

/-- The image box relative to the container, as computed by `imageDims()`:
the `{left: 0, top: 0, width: 1, height: 1}` fallback is used when either
DOM ref is missing. -/
def imageDims (img cont : Option DomRect) : DomRect :=
  match img, cont with
  | some imgRect, some rect =>
    ⟨imgRect.left - rect.left, imgRect.top - rect.top, imgRect.width, imgRect.height⟩
  | _, _ => ⟨0, 0, 1, 1⟩

/-- A JavaScript number restricted to the values arising in `toNorm`:
an exact rational, an infinity, or `NaN`. -/
inductive JSNum where
  | nan
  | posInf
  | negInf
  | num (q : ℚ)
deriving DecidableEq, Repr

/-- IEEE division of a finite numerator by a finite denominator. -/
def jsDiv (a b : ℚ) : JSNum :=
  if b ≠ 0 then .num (a / b)
  else if a > 0 then .posInf
  else if a < 0 then .negInf
  else .nan

/-- `Math.min(c, v)` for a finite `c`: `NaN` absorbs. -/
def jsMin (c : ℚ) : JSNum → JSNum
  | .nan => .nan
  | .posInf => .num c
  | .negInf => .negInf
  | .num q => .num (min c q)

/-- `Math.max(c, v)` for a finite `c`: `NaN` absorbs. -/
def jsMax (c : ℚ) : JSNum → JSNum
  | .nan => .nan
  | .posInf => .posInf
  | .negInf => .num c
  | .num q => .num (max c q)

/-- `toNorm(clientX, clientY)`, parameterized by the container and image
bounding rects.  With no container it returns `(0, 0)`; otherwise it divides
the pointer offset by the `imageDims` box and clamps each coordinate through
`Math.max(0, Math.min(1, ·))`, with IEEE semantics for a zero denominator. -/
def toNorm (cont img : Option DomRect) (clientX clientY : ℚ) : JSNum × JSNum :=
  match cont with
  | none => (.num 0, .num 0)
  | some rect =>
    let x := clientX - rect.left
    let y := clientY - rect.top
    let d := imageDims img cont
    (jsMax 0 (jsMin 1 (jsDiv (x - d.left) d.width)),
     jsMax 0 (jsMin 1 (jsDiv (y - d.top) d.height)))

/-- `fromNorm(x, y)` over a given image box: `left + x*width`,
`top + y*height`. -/
def fromNorm (d : DomRect) (x y : ℚ) : Pt :=
  ⟨d.left + x * d.width, d.top + y * d.height⟩

/-- The square of `distanceToLine(px, py, x1, y1, x2, y2)`: the source
computes `param`, the clamped projection point `(xx, yy)`, and returns
`Math.sqrt(dx*dx + dy*dy)`; this embedding returns `dx*dx + dy*dy`, and
every comparison `distanceToLine ... < t` of the source is embedded as
`distanceToLineSq ... < t*t`. -/
def distanceToLineSq (px py x1 y1 x2 y2 : ℚ) : ℚ :=
  let A := px - x1
  let B := py - y1
  let C := x2 - x1
  let D := y2 - y1
  let dot := A * C + B * D
  let lenSq := C * C + D * D
  let param := if lenSq ≠ 0 then dot / lenSq else -1
  let xx := if param < 0 then x1 else if param > 1 then x2 else x1 + param * C
  let yy := if param < 0 then y1 else if param > 1 then y2 else y1 + param * D
  let dx := px - xx
  let dy := py - yy
  dx * dx + dy * dy

/-! ### Hit testing: `getAnnotationAt` -/

/-- The per-annotation tolerance test of `getAnnotationAt` (tolerance
`0.02`), at normalized pointer position `(nx, ny)`. -/
def hitTest (nx ny : ℚ) (a : Annotation) : Bool :=
  let tolerance : ℚ := 2/100
  match a with
  | .rect _ x y width height _ _ _ =>
    decide (nx ≥ x - tolerance ∧ nx ≤ x + width + tolerance ∧
            ny ≥ y - tolerance ∧ ny ≤ y + height + tolerance)
  | .text _ x y _ _ _ _ =>
    decide (|nx - x| < tolerance ∧ |ny - y| < tolerance)
  | .arrow _ x1 y1 x2 y2 _ _ _ =>
    decide (distanceToLineSq nx ny x1 y1 x2 y2 < tolerance * tolerance)
  | .pen _ points _ _ _ => penSegHit nx ny points
where
  /-- The inner loop over consecutive point pairs of a pen stroke. -/
  penSegHit (nx ny : ℚ) : List Pt → Bool
  | p :: q :: rest =>
    decide (distanceToLineSq nx ny p.x p.y q.x q.y < (2/100 : ℚ) * (2/100)) ||
      penSegHit nx ny (q :: rest)
  | _ => false

/-- `getAnnotationAt`, at normalized pointer position `(nx, ny)`: scan the
annotation list from the last (topmost) to the first, returning the id of
the first annotation passing `hitTest`, or `null`. -/
def getAnnotationAt (nx ny : ℚ) (anns : List Annotation) : Option String :=
  (anns.reverse.find? (hitTest nx ny)).map Annotation.id

/-! ### Pointer handlers -/

/-- `Math.hypot(ax - bx, ay - by) < 10`, embedded through its square. -/
def hypotLt10 (ax ay bx bY : ℚ) : Bool :=
  decide ((ax - bx) * (ax - bx) + (ay - bY) * (ay - bY) < 100)

/-- The drag-mode determination of the `select` branch of `onPointerDown`:
handle tests in screen space (image box `d`, container-local pointer
`(lx, ly)`), falling back to `move`.  `prevX`/`prevY` are seeded with the
normalized pointer position. -/
def selectDragMode (d : DomRect) (lx ly nx ny : ℚ) (hitId : String)
    (a : Annotation) : DragRef :=
  match a with
  | .rect _ x y width height _ _ _ =>
    let p1 := fromNorm d x y
    let p2 := fromNorm d (x + width) (y + height)
    if hypotLt10 p1.x p1.y lx ly then ⟨.resizeRect .nw, hitId, nx, ny⟩
    else if hypotLt10 p2.x p1.y lx ly then ⟨.resizeRect .ne, hitId, nx, ny⟩
    else if hypotLt10 p1.x p2.y lx ly then ⟨.resizeRect .sw, hitId, nx, ny⟩
    else if hypotLt10 p2.x p2.y lx ly then ⟨.resizeRect .se, hitId, nx, ny⟩
    else ⟨.move, hitId, nx, ny⟩
  | .arrow _ x1 y1 x2 y2 _ _ _ =>
    let p1 := fromNorm d x1 y1
    let p2 := fromNorm d x2 y2
    if hypotLt10 p1.x p1.y lx ly then ⟨.arrowStart, hitId, nx, ny⟩
    else if hypotLt10 p2.x p2.y lx ly then ⟨.arrowEnd, hitId, nx, ny⟩
    else ⟨.move, hitId, nx, ny⟩
  | _ => ⟨.move, hitId, nx, ny⟩

/-- Whether an annotation is a text annotation (`a.type === "text"`). -/
def Annotation.isText : Annotation → Bool
  | .text _ _ _ _ _ _ _ => true
  | _ => false

/-- `onPointerDown`, with the image box `d`, the container-local pointer
position `(lx, ly)`, the normalized pointer position `(nx, ny)` and the
fresh annotation id.  Returns the state unchanged when no base image is
loaded. -/
def onPointerDown (s : EditorState) (d : DomRect) (lx ly nx ny : ℚ)
    (freshId : String) : EditorState :=
  if s.baseImage = none then s else
  match s.tool with
  | .select =>
    match getAnnotationAt nx ny s.annotations with
    | some hitId =>
      match s.annotations.find? (fun a => a.id = hitId) with
      | some a =>
        { s with
          selectedId := some hitId
          dragRef := some (selectDragMode d lx ly nx ny hitId a)
          isDragging := true
          editingTextId := if a.isText then some hitId else s.editingTextId
          undoStack := s.undoStack ++ [s.annotations]
          redoStack := [] }
      | none => s  -- unreachable: `getAnnotationAt` only returns ids of members
    | none => { s with selectedId := none, editingTextId := none }
  | .pen => { s with drawing := some (.pen nx ny [⟨nx, ny⟩]) }
  | .rect => { s with drawing := some (.rect nx ny nx ny) }
  | .arrow => { s with drawing := some (.arrow nx ny nx ny) }
  | .text =>
    let newAnn : Annotation := .text freshId nx ny "Click to edit" s.color s.size none
    { pushHistory s (s.annotations ++ [newAnn]) with
      selectedId := some freshId
      editingTextId := some freshId }
  | .erase =>
    match getAnnotationAt nx ny s.annotations with
    | some hitId =>
      let next := s.annotations.filter (fun a => a.id ≠ hitId)
      let s2 := pushHistory s next
      if s.selectedId = some hitId then
        { s2 with selectedId := none, editingTextId := none }
      else s2
    | none => s

/-- The `move`-mode mutation of `onPointerMove`: translate every positional
field by `(dx, dy)` and clamp (a rectangle's `x` is clamped into
`[0, 1 - width]`, its `y` into `[0, 1 - height]`). -/
def applyMove (dx dy : ℚ) : Annotation → Annotation
  | .rect i x y width height c sz l =>
    .rect i (clamp (x + dx) 0 (1 - width)) (clamp (y + dy) 0 (1 - height))
      width height c sz l
  | .arrow i x1 y1 x2 y2 c sz l =>
    .arrow i (clamp (x1 + dx) 0 1) (clamp (y1 + dy) 0 1)
      (clamp (x2 + dx) 0 1) (clamp (y2 + dy) 0 1) c sz l
  | .text i x y t c sz l =>
    .text i (clamp (x + dx) 0 1) (clamp (y + dy) 0 1) t c sz l
  | .pen i points c sz l =>
    .pen i (points.map fun p => ⟨clamp (p.x + dx) 0 1, clamp (p.y + dy) 0 1⟩) c sz l

/-- The `resizeRect`-mode recomputation of `x, y, width, height` for one
corner, at normalized pointer `(px, py)`. -/
def resizeCorner (corner : Corner) (px py x y w h : ℚ) : ℚ × ℚ × ℚ × ℚ :=
  match corner with
  | .nw =>
    let nx := clamp px 0 (x + w)
    let ny := clamp py 0 (y + h)
    (nx, ny, (x + w) - nx, (y + h) - ny)
  | .ne =>
    let ny := clamp py 0 (y + h)
    (x, ny, clamp (px - x) 0 (1 - x), (y + h) - ny)
  | .sw =>
    let nx := clamp px 0 (x + w)
    (nx, y, (x + w) - nx, clamp (py - y) 0 (1 - y))
  | .se =>
    (x, y, clamp (px - x) 0 (1 - x), clamp (py - y) 0 (1 - y))

/-- The per-annotation update of the dragging branch of `onPointerMove`:
`move` applies `applyMove`; `resizeRect` on a rectangle applies
`resizeCorner`; `arrowStart`/`arrowEnd` on an arrow move the corresponding
endpoint to the clamped pointer; every other combination leaves the
annotation unchanged. -/
def dragUpdate (dr : DragRef) (nx ny dx dy : ℚ) (a : Annotation) : Annotation :=
  match dr.mode, a with
  | .move, _ => applyMove dx dy a
  | .resizeRect corner, .rect i x y width height c sz l =>
    let r := resizeCorner corner nx ny x y width height
    .rect i r.1 r.2.1 r.2.2.1 r.2.2.2 c sz l
  | .arrowStart, .arrow i _ _ x2 y2 c sz l =>
    .arrow i (clamp nx 0 1) (clamp ny 0 1) x2 y2 c sz l
  | .arrowEnd, .arrow i x1 y1 _ _ c sz l =>
    .arrow i x1 y1 (clamp nx 0 1) (clamp ny 0 1) c sz l
  | _, _ => a

/-- `onPointerMove` at normalized pointer `(nx, ny)`: extend the in-progress
drawing, or — when dragging with the select tool — apply the incremental
delta since the previous move to the dragged annotation and advance
`prevX`/`prevY`.  No branch touches the undo or redo stacks. -/
def onPointerMove (s : EditorState) (nx ny : ℚ) : EditorState :=
  if s.baseImage = none then s else
  match s.drawing with
  | some (.pen sx sy points) =>
    { s with drawing := some (.pen sx sy (points ++ [⟨nx, ny⟩])) }
  | some (.rect sx sy _ _) => { s with drawing := some (.rect sx sy nx ny) }
  | some (.arrow sx sy _ _) => { s with drawing := some (.arrow sx sy nx ny) }
  | none =>
    if s.isDragging ∧ s.selectedId.isSome ∧ s.tool = .select then
      match s.dragRef with
      | some dr =>
        let dx := nx - dr.prevX
        let dy := ny - dr.prevY
        match s.annotations.findIdx? (fun a => a.id = dr.id) with
        | some idx =>
          match s.annotations[idx]? with
          | some a =>
            { s with
              annotations := s.annotations.set idx (dragUpdate dr nx ny dx dy a)
              dragRef := some { dr with prevX := nx, prevY := ny } }
          | none => s  -- unreachable: `findIdx?` returns an in-range index
        | none => s
      | none => s
    else s

/-- `onPointerUp` with the fresh annotation id.  (The handler computes the
normalized pointer position but never uses it.)  Commits the in-progress
drawing when it meets its threshold, then clears `drawing`, `isDragging`
and `dragRef`. -/
def onPointerUp (s : EditorState) (freshId : String) : EditorState :=
  if s.baseImage = none then s else
  let s2 :=
    match s.drawing with
    | some (.pen _ _ points) =>
      if points.length > 1 then
        { pushHistory s (s.annotations ++
            [ Annotation.pen freshId points s.color s.size none]) with
          selectedId := some freshId }
      else s
    | some (.rect sx sy cx cy) =>
      let x := min sx cx
      let y := min sy cy
      let width := |cx - sx|
      let height := |cy - sy|
      if width > 1/100 ∧ height > 1/100 then
        { pushHistory s (s.annotations ++
            [ Annotation.rect freshId x y width height s.color s.size none]) with
          selectedId := some freshId }
      else s
    | some (.arrow sx sy cx cy) =>
      -- `distance > 0.02` with `distance = Math.sqrt(dx^2 + dy^2)`,
      -- embedded as `dx^2 + dy^2 > 0.02^2`.
      if (cx - sx) * (cx - sx) + (cy - sy) * (cy - sy) > (2/100) * (2/100) then
        { pushHistory s (s.annotations ++
            [ Annotation.arrow freshId sx sy cx cy s.color s.size none]) with
          selectedId := some freshId }
      else s
    | none => s
  { s2 with drawing := none, isDragging := false, dragRef := none }

/-- `removeSelected()`: delete the selected annotation through the history. -/
def removeSelected (s : EditorState) : EditorState :=
  match s.selectedId with
  | none => s
  | some sid =>
    { pushHistory s (s.annotations.filter (fun a => a.id ≠ sid)) with
      selectedId := none
      editingTextId := none }

/-! ### History reachability -/

/-- Editor states reachable by a sequence of commit-producing operations:
a fresh session has empty stacks, and every commit goes through
`pushHistory`. -/
inductive CommitReachable : EditorState → Prop where
  | init (s : EditorState) (hu : s.undoStack = []) (hr : s.redoStack = []) :
      CommitReachable s
  | step (s : EditorState) (next : List Annotation) (h : CommitReachable s) :
      CommitReachable (pushHistory s next)

lemma CommitReachable.redoStack_eq_nil_of_undoStack_eq_nil {s : EditorState}
    (h : CommitReachable s) (hu : s.undoStack = []) : s.redoStack = [] := by
  induction h with
  | init s hu' hr => exact hr
  | step s next h ih => simp [pushHistory] at hu

/-! ### Sample states used by witnesses -/

/-- A sample rectangle annotation. -/
def sampleRect : Annotation := .rect "r1" 0 0 (1/2) (1/2) "#e11d48" 3 none

/-- A fresh editor session with a loaded base image and no annotations. -/
def initialState : EditorState :=
  { tool := .select
    color := "#e11d48"
    size := 3
    selectedId := none
    editingTextId := none
    drawing := none
    undoStack := []
    redoStack := []
    isDragging := false
    dragRef := none
    baseImage := some "img"
    annotations := [] }

/-- The session after committing `sampleRect`. -/
def committedState : EditorState := pushHistory initialState [sampleRect]

/-! ### Theorems -/

/-- **C1.** For every editor state reachable by a sequence of
commit-producing operations, `undo` immediately followed by `redo` restores
exactly the `AnnotationSet` that was current before the undo (structural
equality) and returns both stacks to their pre-undo configuration: the whole
state round-trips. -/
theorem undo_redo_roundtrip (s : EditorState) (h : CommitReachable s) :
    redo (undo s) = s := by
  rcases List.eq_nil_or_concat s.undoStack with hu | ⟨L, b, hu⟩
  · have hr := h.redoStack_eq_nil_of_undoStack_eq_nil hu
    simp [undo, redo, hu, hr]
  · rw [List.concat_eq_append] at hu
    cases s with
    | mk tool color size selectedId editingTextId drawing undoStack redoStack
        isDragging dragRef baseImage annotations =>
      simp only at hu
      subst hu
      simp [undo, redo, List.getLast?_concat, List.dropLast_concat]

/-- Witness for C1 at a concrete reachable state. -/
theorem undo_redo_roundtrip_witness :
    redo (undo committedState) = committedState :=
  undo_redo_roundtrip committedState
    (CommitReachable.step initialState [sampleRect]
      (CommitReachable.init initialState rfl rfl))

/-- Three annotations for the image-load scenario. -/
def annA : Annotation := .rect "a1" 0 0 (1/4) (1/4) "#e11d48" 3 none

/-- Second sample annotation. -/
def annB : Annotation := .arrow "a2" 0 0 (1/2) (1/2) "#e11d48" 3 none

/-- Third sample annotation. -/
def annC : Annotation := .text "a3" (1/2) (1/2) "note" "#e11d48" 3 none

/-- A session holding three annotations committed one by one. -/
def threeAnnState : EditorState :=
  pushHistory (pushHistory (pushHistory initialState [annA]) [annA, annB])
    [annA, annB, annC]

/-- **C2, counterexample.** Loading a new base image while 3 annotations
exist empties the `AnnotationSet` but does *not* reset the undo stack: the
handler only stores the new image and calls `onChange([])`, leaving both
history stacks untouched. -/
theorem loadImage_keeps_stacks_cex :
    (loadImage threeAnnState "img2").annotations = [] ∧
    (loadImage threeAnnState "img2").undoStack ≠ [] ∧
    (loadImage threeAnnState "img2").undoStack = threeAnnState.undoStack := by
  refine ⟨rfl, ?_, rfl⟩
  simp [loadImage, threeAnnState, pushHistory, initialState]

/-- **C2, amended.** Loading a new base image makes the `AnnotationSet`
empty and clears the selection and text-editing state, but leaves both the
undo stack and the redo stack exactly as they were. -/
theorem loadImage_spec (s : EditorState) (url : String) :
    (loadImage s url).annotations = [] ∧
    (loadImage s url).baseImage = some url ∧
    (loadImage s url).selectedId = none ∧
    (loadImage s url).editingTextId = none ∧
    (loadImage s url).undoStack = s.undoStack ∧
    (loadImage s url).redoStack = s.redoStack := by
  simp [loadImage]

/-- Whether a JavaScript number is a finite value inside `[0, 1]` (in
particular, not `NaN`). -/
def JSNum.inUnitInterval : JSNum → Bool
  | .num q => decide (0 ≤ q ∧ q ≤ 1)
  | _ => false

/-- **C3, counterexample.** With both DOM refs present but the image
bounding box of width `0` (a real rect, e.g. an image that has not laid out
yet), a pointer at the box's left edge makes `toNorm` compute `0 / 0`, and
the clamp chain propagates the resulting `NaN`: the output is not a defined
fallback in `[0, 1]`. -/
theorem toNorm_nan_cex :
    (toNorm (some ⟨0, 0, 100, 100⟩) (some ⟨0, 0, 0, 10⟩) 0 0).1 = JSNum.nan := by
  norm_num [toNorm, imageDims, jsDiv, jsMin, jsMax]

/-- **C3, amended.** `toNorm` returns a pair in `[0, 1]²` (never `NaN`)
whenever the effective image box has nonzero width and height — in
particular whenever a DOM ref is missing, since `imageDims` then falls back
to the `1 × 1` box; only a degenerate (zero width or height) box obtained
from live refs can produce `NaN`. -/
theorem toNorm_in_unit (cont img : Option DomRect) (cx cy : ℚ)
    (hw : (imageDims img cont).width ≠ 0)
    (hh : (imageDims img cont).height ≠ 0) :
    (toNorm cont img cx cy).1.inUnitInterval = true ∧
    (toNorm cont img cx cy).2.inUnitInterval = true := by
  cases cont with
  | none => simp [toNorm, JSNum.inUnitInterval]
  | some rect =>
    simp only [toNorm, jsDiv, hw, hh, if_true, ne_eq, not_false_iff]
    constructor <;>
      simp [jsMin, jsMax, JSNum.inUnitInterval, le_max_iff, min_le_iff, le_refl,
        le_total]

/-- Witness for the amended C3 at a concrete nondegenerate box. -/
theorem toNorm_in_unit_witness :
    (toNorm (some ⟨0, 0, 400, 300⟩) (some ⟨50, 20, 300, 200⟩) 500 10).1.inUnitInterval
        = true ∧
    (toNorm (some ⟨0, 0, 400, 300⟩) (some ⟨50, 20, 300, 200⟩) 500 10).2.inUnitInterval
        = true :=
  toNorm_in_unit (some ⟨0, 0, 400, 300⟩) (some ⟨50, 20, 300, 200⟩) 500 10
    (by decide) (by decide)

/-- **C4.** `getAnnotationAt` iterates the `AnnotationSet` in reverse
insertion order with tolerance `0.02`: when no annotation passes the
tolerance test it returns `none` (no selection, never an error), and when
the set splits as `l₁ ++ a :: l₂` with `a` within tolerance and everything
inserted after `a` missing, it returns the id of `a` — the last-inserted
(topmost z-order) annotation within tolerance. -/
theorem getAnnotationAt_topmost (nx ny : ℚ) (anns : List Annotation) :
    ((∀ a ∈ anns, hitTest nx ny a = false) →
      getAnnotationAt nx ny anns = none) ∧
    (∀ (l₁ : List Annotation) (a : Annotation) (l₂ : List Annotation),
      anns = l₁ ++ a :: l₂ → hitTest nx ny a = true →
      (∀ b ∈ l₂, hitTest nx ny b = false) →
      getAnnotationAt nx ny anns = some a.id) := by
  constructor
  · intro hmiss
    have h0 : anns.reverse.find? (hitTest nx ny) = none := by
      rw [List.find?_eq_none]
      intro x hx
      simp [hmiss x (List.mem_reverse.mp hx)]
    simp [getAnnotationAt, h0]
  · intro l₁ a l₂ hsplit hhit hmiss
    subst hsplit
    have hrev : (l₁ ++ a :: l₂).reverse = l₂.reverse ++ a :: l₁.reverse := by
      simp
    have h2 : l₂.reverse.find? (hitTest nx ny) = none := by
      rw [List.find?_eq_none]
      intro x hx
      simp [hmiss x (List.mem_reverse.mp hx)]
    simp [getAnnotationAt, hrev, List.find?_append, h2,
      List.find?_cons_of_pos _ hhit]

/-- A rectangle overlapping `sampleRect`, inserted later. -/
def overlapRect : Annotation := .rect "r2" (1/4) (1/4) (1/2) (1/2) "#2563eb" 3 none

/-- Witness for C4: at `(0.3, 0.3)` both rectangles are within tolerance
and the later-inserted `overlapRect` wins. -/
theorem getAnnotationAt_topmost_witness :
    getAnnotationAt (3/10) (3/10) [sampleRect, overlapRect] = some "r2" :=
  (getAnnotationAt_topmost (3/10) (3/10) [sampleRect, overlapRect]).2
    [sampleRect] overlapRect [] rfl
    (by norm_num [hitTest, overlapRect]) (by intro b hb; simp at hb)

/-- **C5.** On pointer-up while drawing: a Pen commits iff it has at least
2 points; a Rectangle commits iff both its width and height exceed the
minimum threshold (`0.01`); an Arrow commits iff the distance between its
endpoints exceeds the minimum threshold (`0.02`, compared through the
square); every sub-threshold attempt leaves the `AnnotationSet`, the undo
stack and the redo stack unchanged. -/
theorem onPointerUp_commit_thresholds (s : EditorState) (freshId : String)
    (hb : ¬ s.baseImage = none) :
    (∀ sx sy points, s.drawing = some (.pen sx sy points) →
      (2 ≤ points.length →
        (onPointerUp s freshId).annotations =
          s.annotations ++ [ Annotation.pen freshId points s.color s.size none]) ∧
      (points.length < 2 →
        (onPointerUp s freshId).annotations = s.annotations ∧
        (onPointerUp s freshId).undoStack = s.undoStack ∧
        (onPointerUp s freshId).redoStack = s.redoStack)) ∧
    (∀ sx sy cx cy, s.drawing = some (.rect sx sy cx cy) →
      ((|cx - sx| > 1/100 ∧ |cy - sy| > 1/100) →
        (onPointerUp s freshId).annotations =
          s.annotations ++ [ Annotation.rect freshId (min sx cx) (min sy cy)
            (|cx - sx|) (|cy - sy|) s.color s.size none]) ∧
      (¬ (|cx - sx| > 1/100 ∧ |cy - sy| > 1/100) →
        (onPointerUp s freshId).annotations = s.annotations ∧
        (onPointerUp s freshId).undoStack = s.undoStack ∧
        (onPointerUp s freshId).redoStack = s.redoStack)) ∧
    (∀ sx sy cx cy, s.drawing = some (.arrow sx sy cx cy) →
      ((cx - sx) * (cx - sx) + (cy - sy) * (cy - sy) > (2/100) * (2/100) →
        (onPointerUp s freshId).annotations =
          s.annotations ++ [ Annotation.arrow freshId sx sy cx cy s.color s.size none]) ∧
      (¬ (cx - sx) * (cx - sx) + (cy - sy) * (cy - sy) > (2/100) * (2/100) →
        (onPointerUp s freshId).annotations = s.annotations ∧
        (onPointerUp s freshId).undoStack = s.undoStack ∧
        (onPointerUp s freshId).redoStack = s.redoStack)) := by
  refine ⟨?_, ?_, ?_⟩
  · intro sx sy points hd
    constructor
    · intro hlen
      have h1 : points.length > 1 := by omega
      simp [onPointerUp, hb, hd, h1, pushHistory]
    · intro hlen
      have h1 : ¬ points.length > 1 := by omega
      simp [onPointerUp, hb, hd, h1]
  · intro sx sy cx cy hd
    constructor
    · intro hwh
      have h1 : (100:ℚ)⁻¹ < |cx - sx| := by rw [inv_eq_one_div]; exact hwh.1
      have h2 : (100:ℚ)⁻¹ < |cy - sy| := by rw [inv_eq_one_div]; exact hwh.2
      simp [onPointerUp, hb, hd, h1, h2, pushHistory]
    · intro hwh
      have hneg : ¬ ((100:ℚ)⁻¹ < |cx - sx| ∧ (100:ℚ)⁻¹ < |cy - sy|) := by
        rw [inv_eq_one_div]; exact hwh
      simp [onPointerUp, hb, hd, hneg]
  · intro sx sy cx cy hd
    constructor
    · intro hdist
      simp [onPointerUp, hb, hd, if_pos hdist, pushHistory]
    · intro hdist
      simp [onPointerUp, hb, hd, if_neg hdist]

/-- A session with an in-progress arrow from `(0, 0)` to `(0.01, 0.01)`. -/
def arrowDrawState : EditorState :=
  { initialState with drawing := some (.arrow 0 0 (1/100) (1/100)) }

/-- Witness for C5: the arrow `(0,0) → (0.01, 0.01)` is below the distance
threshold, so pointer-up produces no annotation and no history entry. -/
theorem onPointerUp_commit_thresholds_witness :
    (onPointerUp arrowDrawState "a9").annotations = arrowDrawState.annotations ∧
    (onPointerUp arrowDrawState "a9").undoStack = arrowDrawState.undoStack ∧
    (onPointerUp arrowDrawState "a9").redoStack = arrowDrawState.redoStack :=
  ((onPointerUp_commit_thresholds arrowDrawState "a9"
      (by simp [arrowDrawState, initialState])).2.2
    0 0 (1/100) (1/100) rfl).2 (by norm_num)

/-! ### Clamp helper lemmas -/

lemma le_clamp (v mn mx : ℚ) : mn ≤ clamp v mn mx := le_max_left _ _

lemma clamp_le_right (v mn mx : ℚ) (h : mn ≤ mx) : clamp v mn mx ≤ mx :=
  max_le h (min_le_left _ _)

lemma clamp_le_of_le (v m b : ℚ) (hm : m ≤ b) (hb : 0 ≤ b) : clamp v 0 m ≤ b :=
  max_le hb ((min_le_left m v).trans hm)

lemma clamp_eq_self (v mn mx : ℚ) (h1 : mn ≤ v) (h2 : v ≤ mx) :
    clamp v mn mx = v := by
  unfold clamp
  rw [min_eq_right h2, max_eq_right h1]

/-- A rational lies in the normalized interval `[0, 1]`. -/
def inUnit (q : ℚ) : Prop := 0 ≤ q ∧ q ≤ 1

/-- All positional fields of an annotation lie in `[0, 1]` (for a rectangle
these are its anchor `x, y`; width and height are dimensions). -/
def Annotation.positionalInUnit : Annotation → Prop
  | .pen _ points _ _ _ => ∀ p ∈ points, inUnit p.x ∧ inUnit p.y
  | .rect _ x y _ _ _ _ _ => inUnit x ∧ inUnit y
  | .arrow _ x1 y1 x2 y2 _ _ _ => inUnit x1 ∧ inUnit y1 ∧ inUnit x2 ∧ inUnit y2
  | .text _ x y _ _ _ _ => inUnit x ∧ inUnit y

/-- A rectangle's dimensions are nonnegative (trivially true for the other
variants); an invariant of every rectangle the editor creates. -/
def Annotation.dimsNonneg : Annotation → Prop
  | .rect _ _ _ width height _ _ _ => 0 ≤ width ∧ 0 ≤ height
  | _ => True

/-- **C7.** After a Move on any annotation type, every positional
coordinate lies in `[0, 1]` (for a rectangle, assuming its dimensions are
nonnegative, an invariant of creation and resize); and a rectangle with
dimensions in `[0, 1]` is moreover clamped so that `x ∈ [0, 1 - width]` and
`y ∈ [0, 1 - height]`, keeping the whole box in bounds, with its dimensions
and remaining fields untouched. -/
theorem applyMove_in_bounds (dx dy : ℚ) :
    (∀ a : Annotation, a.dimsNonneg → (applyMove dx dy a).positionalInUnit) ∧
    (∀ (i : String) (x y w h : ℚ) (c : String) (sz : ℚ) (l : Option String),
      0 ≤ w → w ≤ 1 → 0 ≤ h → h ≤ 1 →
      ∃ x2 y2, applyMove dx dy (.rect i x y w h c sz l) = .rect i x2 y2 w h c sz l ∧
        0 ≤ x2 ∧ x2 ≤ 1 - w ∧ 0 ≤ y2 ∧ y2 ≤ 1 - h) := by
  constructor
  · intro a hdims
    cases a with
    | pen i points c sz l =>
      intro p hp
      simp only [applyMove, List.mem_map] at hp
      obtain ⟨q, _, rfl⟩ := hp
      exact ⟨⟨le_clamp _ _ _, clamp_le_right _ _ _ (by norm_num)⟩,
             ⟨le_clamp _ _ _, clamp_le_right _ _ _ (by norm_num)⟩⟩
    | rect i x y w h c sz l =>
      obtain ⟨hw, hh⟩ := hdims
      exact ⟨⟨le_clamp _ _ _, clamp_le_of_le _ _ _ (by linarith) (by norm_num)⟩,
             ⟨le_clamp _ _ _, clamp_le_of_le _ _ _ (by linarith) (by norm_num)⟩⟩
    | arrow i x1 y1 x2 y2 c sz l =>
      refine ⟨⟨le_clamp _ _ _, clamp_le_right _ _ _ (by norm_num)⟩, ?_, ?_, ?_⟩ <;>
        exact ⟨le_clamp _ _ _, clamp_le_right _ _ _ (by norm_num)⟩
    | text i x y t c sz l =>
      exact ⟨⟨le_clamp _ _ _, clamp_le_right _ _ _ (by norm_num)⟩,
             ⟨le_clamp _ _ _, clamp_le_right _ _ _ (by norm_num)⟩⟩
  · intro i x y w h c sz l hw0 hw1 hh0 hh1
    refine ⟨clamp (x + dx) 0 (1 - w), clamp (y + dy) 0 (1 - h), rfl,
      le_clamp _ _ _, clamp_le_right _ _ _ (by linarith),
      le_clamp _ _ _, clamp_le_right _ _ _ (by linarith)⟩

/-- Witness for C7: moving a half-unit rectangle by `(0.7, -2)` lands at
`x = 1/2 = 1 - width`, `y = 0`, inside bounds. -/
theorem applyMove_in_bounds_witness :
    (applyMove (7/10) (-2) sampleRect).positionalInUnit ∧
    (∃ x2 y2, applyMove (7/10) (-2)
        (.rect "r1" 0 0 (1/2) (1/2) "#e11d48" 3 none) =
        .rect "r1" x2 y2 (1/2) (1/2) "#e11d48" 3 none ∧
      0 ≤ x2 ∧ x2 ≤ 1 - 1/2 ∧ 0 ≤ y2 ∧ y2 ≤ 1 - 1/2) :=
  ⟨(applyMove_in_bounds (7/10) (-2)).1 sampleRect (by norm_num [sampleRect, Annotation.dimsNonneg]),
   (applyMove_in_bounds (7/10) (-2)).2 "r1" 0 0 (1/2) (1/2) "#e11d48" 3 none
     (by norm_num) (by norm_num) (by norm_num) (by norm_num)⟩

/-- **C9.** Dragging an Arrow endpoint updates only the dragged endpoint,
clamped into `[0, 1]`; the other endpoint and all remaining fields (`id`,
`color`, `size`, `linkedFieldId`) are unchanged. -/
theorem dragUpdate_arrow_endpoint (nx ny dx dy px py : ℚ) (tid i : String)
    (x1 y1 x2 y2 : ℚ) (c : String) (sz : ℚ) (l : Option String) :
    (∃ a b, dragUpdate ⟨.arrowStart, tid, px, py⟩ nx ny dx dy
        (.arrow i x1 y1 x2 y2 c sz l) = .arrow i a b x2 y2 c sz l ∧
      0 ≤ a ∧ a ≤ 1 ∧ 0 ≤ b ∧ b ≤ 1) ∧
    (∃ a b, dragUpdate ⟨.arrowEnd, tid, px, py⟩ nx ny dx dy
        (.arrow i x1 y1 x2 y2 c sz l) = .arrow i x1 y1 a b c sz l ∧
      0 ≤ a ∧ a ≤ 1 ∧ 0 ≤ b ∧ b ≤ 1) := by
  constructor <;>
    exact ⟨clamp nx 0 1, clamp ny 0 1, rfl,
      le_clamp _ _ _, clamp_le_right _ _ _ (by norm_num),
      le_clamp _ _ _, clamp_le_right _ _ _ (by norm_num)⟩

/-- **C8.** Resizing a rectangle by a corner, starting from a box inside
`[0, 1]²`: the recomputed box keeps width and height nonnegative and stays
inside `[0, 1]²`; the corner opposite the dragged one stays fixed; the
dragged corner tracks the pointer whenever the pointer lies in the region
the clamps allow; and in particular dragging the `se` corner of a rectangle
with `x = 0.2, y = 0.2` to normalized `(0.9, 0.9)` yields
`width = 0.7, height = 0.7` with `x, y` unchanged (whatever the previous
dimensions were).  Components of `resizeCorner` are `(x, y, width, height)`. -/
theorem resizeCorner_spec (px py x y w h : ℚ)
    (hx : 0 ≤ x) (hy : 0 ≤ y) (hw : 0 ≤ w) (hh : 0 ≤ h)
    (hxw : x + w ≤ 1) (hyh : y + h ≤ 1) :
    (∀ c : Corner,
      0 ≤ (resizeCorner c px py x y w h).2.2.1 ∧
      0 ≤ (resizeCorner c px py x y w h).2.2.2 ∧
      0 ≤ (resizeCorner c px py x y w h).1 ∧
      0 ≤ (resizeCorner c px py x y w h).2.1 ∧
      (resizeCorner c px py x y w h).1 + (resizeCorner c px py x y w h).2.2.1 ≤ 1 ∧
      (resizeCorner c px py x y w h).2.1 + (resizeCorner c px py x y w h).2.2.2 ≤ 1) ∧
    ((resizeCorner .nw px py x y w h).1 + (resizeCorner .nw px py x y w h).2.2.1 = x + w ∧
     (resizeCorner .nw px py x y w h).2.1 + (resizeCorner .nw px py x y w h).2.2.2 = y + h) ∧
    ((resizeCorner .ne px py x y w h).1 = x ∧
     (resizeCorner .ne px py x y w h).2.1 + (resizeCorner .ne px py x y w h).2.2.2 = y + h) ∧
    ((resizeCorner .sw px py x y w h).1 + (resizeCorner .sw px py x y w h).2.2.1 = x + w ∧
     (resizeCorner .sw px py x y w h).2.1 = y) ∧
    ((resizeCorner .se px py x y w h).1 = x ∧
     (resizeCorner .se px py x y w h).2.1 = y) ∧
    (0 ≤ px → px ≤ x + w → 0 ≤ py → py ≤ y + h →
      (resizeCorner .nw px py x y w h).1 = px ∧
      (resizeCorner .nw px py x y w h).2.1 = py) ∧
    (x ≤ px → px ≤ 1 → 0 ≤ py → py ≤ y + h →
      (resizeCorner .ne px py x y w h).1 + (resizeCorner .ne px py x y w h).2.2.1 = px ∧
      (resizeCorner .ne px py x y w h).2.1 = py) ∧
    (0 ≤ px → px ≤ x + w → y ≤ py → py ≤ 1 →
      (resizeCorner .sw px py x y w h).1 = px ∧
      (resizeCorner .sw px py x y w h).2.1 + (resizeCorner .sw px py x y w h).2.2.2 = py) ∧
    (x ≤ px → px ≤ 1 → y ≤ py → py ≤ 1 →
      (resizeCorner .se px py x y w h).1 + (resizeCorner .se px py x y w h).2.2.1 = px ∧
      (resizeCorner .se px py x y w h).2.1 + (resizeCorner .se px py x y w h).2.2.2 = py) ∧
    (∀ w0 h0 : ℚ,
      resizeCorner .se (9/10) (9/10) (1/5) (1/5) w0 h0 = (1/5, 1/5, 7/10, 7/10)) := by
  have hxw0 : (0:ℚ) ≤ x + w := by linarith
  have hyh0 : (0:ℚ) ≤ y + h := by linarith
  have hpx0 : 0 ≤ clamp px 0 (x + w) := le_clamp _ _ _
  have hpx1 : clamp px 0 (x + w) ≤ x + w := clamp_le_right _ _ _ hxw0
  have hpy0 : 0 ≤ clamp py 0 (y + h) := le_clamp _ _ _
  have hpy1 : clamp py 0 (y + h) ≤ y + h := clamp_le_right _ _ _ hyh0
  have hqx0 : 0 ≤ clamp (px - x) 0 (1 - x) := le_clamp _ _ _
  have hqx1 : clamp (px - x) 0 (1 - x) ≤ 1 - x := clamp_le_right _ _ _ (by linarith)
  have hqy0 : 0 ≤ clamp (py - y) 0 (1 - y) := le_clamp _ _ _
  have hqy1 : clamp (py - y) 0 (1 - y) ≤ 1 - y := clamp_le_right _ _ _ (by linarith)
  refine ⟨?_, ?_, ?_, ?_, ?_, ?_, ?_, ?_, ?_, ?_⟩
  · intro c
    cases c with
    | nw =>
      simp only [resizeCorner]
      exact ⟨by linarith, by linarith, hpx0, hpy0, by linarith, by linarith⟩
    | ne =>
      simp only [resizeCorner]
      exact ⟨hqx0, by linarith, hx, hpy0, by linarith, by linarith⟩
    | sw =>
      simp only [resizeCorner]
      exact ⟨by linarith, hqy0, hpx0, hy, by linarith, by linarith⟩
    | se =>
      simp only [resizeCorner]
      exact ⟨hqx0, hqy0, hx, hy, by linarith, by linarith⟩
  · simp only [resizeCorner]
    exact ⟨by ring, by ring⟩
  · simp only [resizeCorner]
    exact ⟨trivial, by ring⟩
  · simp only [resizeCorner]
    exact ⟨by ring, trivial⟩
  · simp only [resizeCorner]
    exact ⟨trivial, trivial⟩
  · intro h1 h2 h3 h4
    simp only [resizeCorner]
    rw [clamp_eq_self px 0 (x + w) h1 h2, clamp_eq_self py 0 (y + h) h3 h4]
    exact ⟨rfl, rfl⟩
  · intro h1 h2 h3 h4
    simp only [resizeCorner]
    rw [clamp_eq_self (px - x) 0 (1 - x) (by linarith) (by linarith),
      clamp_eq_self py 0 (y + h) h3 h4]
    exact ⟨by ring, rfl⟩
  · intro h1 h2 h3 h4
    simp only [resizeCorner]
    rw [clamp_eq_self px 0 (x + w) h1 h2,
      clamp_eq_self (py - y) 0 (1 - y) (by linarith) (by linarith)]
    exact ⟨rfl, by ring⟩
  · intro h1 h2 h3 h4
    simp only [resizeCorner]
    rw [clamp_eq_self (px - x) 0 (1 - x) (by linarith) (by linarith),
      clamp_eq_self (py - y) 0 (1 - y) (by linarith) (by linarith)]
    exact ⟨by ring, by ring⟩
  · intro w0 h0
    have e1 : clamp (9/10 - 1/5 : ℚ) 0 (1 - 1/5) = 7/10 := by
      rw [show (9/10 - 1/5 : ℚ) = 7/10 by norm_num]
      exact clamp_eq_self _ _ _ (by norm_num) (by norm_num)
    simp only [resizeCorner]
    rw [e1]

/-- Witness for C8: the spec scenario with previous dimensions `0.1 × 0.1`. -/
theorem resizeCorner_spec_witness :
    resizeCorner .se (9/10) (9/10) (1/5) (1/5) (1/10) (1/10) =
      (1/5, 1/5, 7/10, 7/10) :=
  (resizeCorner_spec (9/10) (9/10) (1/5) (1/5) (1/10) (1/10)
    (by norm_num) (by norm_num) (by norm_num) (by norm_num)
    (by norm_num) (by norm_num)).2.2.2.2.2.2.2.2.2 (1/10) (1/10)

/-! ### Helper lemmas about hit testing and the drag loop -/

lemma getAnnotationAt_mem (nx ny : ℚ) (anns : List Annotation) (i : String)
    (h : getAnnotationAt nx ny anns = some i) :
    ∃ a ∈ anns, Annotation.id a = i := by
  unfold getAnnotationAt at h
  cases hf : anns.reverse.find? (hitTest nx ny) with
  | none => rw [hf] at h; simp at h
  | some a =>
    rw [hf] at h
    simp only [Option.map_some'] at h
    have ha : a ∈ anns := List.mem_reverse.mp (List.mem_of_find?_eq_some hf)
    exact ⟨a, ha, by injection h⟩

lemma exists_find?_of_getAnnotationAt (nx ny : ℚ) (anns : List Annotation)
    (i : String) (h : getAnnotationAt nx ny anns = some i) :
    ∃ a : Annotation, anns.find? (fun a => a.id = i) = some a := by
  obtain ⟨a, ha, hid⟩ := getAnnotationAt_mem nx ny anns i h
  have hsome : (anns.find? (fun a => a.id = i)).isSome := by
    rw [List.find?_isSome]
    exact ⟨a, ha, by simp [hid]⟩
  obtain ⟨b, hb⟩ := Option.isSome_iff_exists.mp hsome
  exact ⟨b, hb⟩

lemma onPointerMove_preserves_stacks (s : EditorState) (nx ny : ℚ) :
    (onPointerMove s nx ny).undoStack = s.undoStack ∧
    (onPointerMove s nx ny).redoStack = s.redoStack := by
  unfold onPointerMove
  repeat' split
  all_goals exact ⟨rfl, rfl⟩

lemma foldl_onPointerMove_preserves_stacks (moves : List Pt) (s : EditorState) :
    (moves.foldl (fun st p => onPointerMove st p.x p.y) s).undoStack = s.undoStack ∧
    (moves.foldl (fun st p => onPointerMove st p.x p.y) s).redoStack = s.redoStack := by
  induction moves generalizing s with
  | nil => exact ⟨rfl, rfl⟩
  | cons p ps ih =>
    simp only [List.foldl_cons]
    obtain ⟨h1, h2⟩ := ih (onPointerMove s p.x p.y)
    obtain ⟨g1, g2⟩ := onPointerMove_preserves_stacks s p.x p.y
    exact ⟨h1.trans g1, h2.trans g2⟩

/-- **C6.** Every commit-producing operation (text creation, erase, clear
all, delete selected, shape commit on pointer-up) pushes the pre-operation
snapshot of the `AnnotationSet` onto the undo stack and empties the redo
stack; a drag gesture (pointer-down that hits with the select tool,
followed by any sequence of pointer-moves) records exactly one history
entry — the pre-drag snapshot, pushed at drag start — the per-move
mutations adding none. -/
theorem history_push_discipline (s : EditorState) (d : DomRect)
    (lx ly nx ny : ℚ) (fid : String) :
    (¬ s.baseImage = none → s.tool = .text →
      (onPointerDown s d lx ly nx ny fid).undoStack = s.undoStack ++ [s.annotations] ∧
      (onPointerDown s d lx ly nx ny fid).redoStack = []) ∧
    (¬ s.baseImage = none → s.tool = .erase →
      (getAnnotationAt nx ny s.annotations).isSome →
      (onPointerDown s d lx ly nx ny fid).undoStack = s.undoStack ++ [s.annotations] ∧
      (onPointerDown s d lx ly nx ny fid).redoStack = []) ∧
    (¬ s.annotations = [] →
      (clearAll s).undoStack = s.undoStack ++ [s.annotations] ∧
      (clearAll s).redoStack = []) ∧
    ((s.selectedId).isSome →
      (removeSelected s).undoStack = s.undoStack ++ [s.annotations] ∧
      (removeSelected s).redoStack = []) ∧
    (¬ s.baseImage = none →
      (∀ sx sy points, s.drawing = some (.pen sx sy points) → 1 < points.length →
        (onPointerUp s fid).undoStack = s.undoStack ++ [s.annotations] ∧
        (onPointerUp s fid).redoStack = []) ∧
      (∀ sx sy cx cy, s.drawing = some (.rect sx sy cx cy) →
        (|cx - sx| > 1/100 ∧ |cy - sy| > 1/100) →
        (onPointerUp s fid).undoStack = s.undoStack ++ [s.annotations] ∧
        (onPointerUp s fid).redoStack = []) ∧
      (∀ sx sy cx cy, s.drawing = some (.arrow sx sy cx cy) →
        (cx - sx) * (cx - sx) + (cy - sy) * (cy - sy) > (2/100) * (2/100) →
        (onPointerUp s fid).undoStack = s.undoStack ++ [s.annotations] ∧
        (onPointerUp s fid).redoStack = [])) ∧
    (¬ s.baseImage = none → s.tool = .select →
      (getAnnotationAt nx ny s.annotations).isSome →
      ∀ moves : List Pt,
        (moves.foldl (fun st p => onPointerMove st p.x p.y)
            (onPointerDown s d lx ly nx ny fid)).undoStack
          = s.undoStack ++ [s.annotations] ∧
        (moves.foldl (fun st p => onPointerMove st p.x p.y)
            (onPointerDown s d lx ly nx ny fid)).redoStack = []) := by
  refine ⟨?_, ?_, ?_, ?_, ?_, ?_⟩
  · intro hb ht
    simp [onPointerDown, hb, ht, pushHistory]
  · intro hb ht hhit
    obtain ⟨hid, hh⟩ := Option.isSome_iff_exists.mp hhit
    by_cases hsel : s.selectedId = some hid <;>
      simp [onPointerDown, hb, ht, hh, hsel, pushHistory]
  · intro hne
    simp [clearAll, hne, pushHistory]
  · intro hsel
    obtain ⟨sid, hs⟩ := Option.isSome_iff_exists.mp hsel
    simp [removeSelected, hs, pushHistory]
  · intro hb
    refine ⟨?_, ?_, ?_⟩
    · intro sx sy points hd hlen
      simp [onPointerUp, hb, hd, hlen, pushHistory]
    · intro sx sy cx cy hd hwh
      have h1 : (100:ℚ)⁻¹ < |cx - sx| := by rw [inv_eq_one_div]; exact hwh.1
      have h2 : (100:ℚ)⁻¹ < |cy - sy| := by rw [inv_eq_one_div]; exact hwh.2
      simp [onPointerUp, hb, hd, h1, h2, pushHistory]
    · intro sx sy cx cy hd hdist
      simp [onPointerUp, hb, hd, if_pos hdist, pushHistory]
  · intro hb ht hhit moves
    obtain ⟨hid, hh⟩ := Option.isSome_iff_exists.mp hhit
    obtain ⟨a, hfind⟩ := exists_find?_of_getAnnotationAt nx ny s.annotations hid hh
    have hdown : (onPointerDown s d lx ly nx ny fid).undoStack
          = s.undoStack ++ [s.annotations] ∧
        (onPointerDown s d lx ly nx ny fid).redoStack = [] := by
      simp [onPointerDown, hb, ht, hh, hfind]
    obtain ⟨hu, hr⟩ :=
      foldl_onPointerMove_preserves_stacks moves (onPointerDown s d lx ly nx ny fid)
    exact ⟨hu.trans hdown.1, hr.trans hdown.2⟩

/-- A session with three committed annotations and the Text tool active. -/
def textToolState : EditorState := { threeAnnState with tool := .text }

/-- Witness for C6: creating a text annotation pushes the pre-operation
three-annotation snapshot and clears the redo stack. -/
theorem history_push_discipline_witness :
    (onPointerDown textToolState ⟨0, 0, 100, 100⟩ 0 0 (1/2) (1/2) "t1").undoStack
        = textToolState.undoStack ++ [textToolState.annotations] ∧
    (onPointerDown textToolState ⟨0, 0, 100, 100⟩ 0 0 (1/2) (1/2) "t1").redoStack
        = [] :=
  (history_push_discipline textToolState ⟨0, 0, 100, 100⟩ 0 0 (1/2) (1/2) "t1").1
    (by simp [textToolState, threeAnnState, pushHistory, initialState]) rfl

/-! ### Deletion -/

lemma filter_ne_id_append (l₁ l₂ : List Annotation) (a : Annotation)
    (hnd : ((l₁ ++ a :: l₂).map Annotation.id).Nodup) :
    (l₁ ++ a :: l₂).filter (fun b => b.id ≠ a.id) = l₁ ++ l₂ := by
  have hmap : (l₁.map Annotation.id ++ a.id :: l₂.map Annotation.id).Nodup := by
    simpa using hnd
  rw [List.nodup_append] at hmap
  obtain ⟨_, hmid, hdisj⟩ := hmap
  have hnotin2 : a.id ∉ l₂.map Annotation.id := (List.nodup_cons.mp hmid).1
  have hnotin1 : a.id ∉ l₁.map Annotation.id := fun hmem =>
    hdisj hmem (List.mem_cons_self _ _)
  have e1 : l₁.filter (fun b => b.id ≠ a.id) = l₁ :=
    List.filter_eq_self.mpr fun b hb => by
      simp only [ne_eq, decide_eq_true_eq]
      exact fun hid => hnotin1 (List.mem_map.mpr ⟨b, hb, hid⟩)
  have e2 : l₂.filter (fun b => b.id ≠ a.id) = l₂ :=
    List.filter_eq_self.mpr fun b hb => by
      simp only [ne_eq, decide_eq_true_eq]
      exact fun hid => hnotin2 (List.mem_map.mpr ⟨b, hb, hid⟩)
  rw [List.filter_append, List.filter_cons, e1, e2]
  simp

/-- **C10.** Deleting an annotation — via the Erase tool on a hit, or via
Delete Selected — removes exactly the one annotation whose id matches the
hit/selected id (ids being unique in the set): the remaining annotations
are the untouched prefix and suffix in their original relative order. -/
theorem delete_removes_exactly_one (s : EditorState) (d : DomRect)
    (lx ly nx ny : ℚ) (fid hid sid : String) :
    (¬ s.baseImage = none → s.tool = .erase →
      getAnnotationAt nx ny s.annotations = some hid →
      (s.annotations.map Annotation.id).Nodup →
      ∃ l₁ a l₂, s.annotations = l₁ ++ a :: l₂ ∧ Annotation.id a = hid ∧
        (onPointerDown s d lx ly nx ny fid).annotations = l₁ ++ l₂) ∧
    (s.selectedId = some sid →
      (∃ a ∈ s.annotations, Annotation.id a = sid) →
      (s.annotations.map Annotation.id).Nodup →
      ∃ l₁ a l₂, s.annotations = l₁ ++ a :: l₂ ∧ Annotation.id a = sid ∧
        (removeSelected s).annotations = l₁ ++ l₂) := by
  constructor
  · intro hb ht hh hnd
    obtain ⟨a, ha, hid'⟩ := getAnnotationAt_mem nx ny s.annotations hid hh
    obtain ⟨l₁, l₂, hsplit⟩ := List.append_of_mem ha
    refine ⟨l₁, a, l₂, hsplit, hid', ?_⟩
    have hfil : s.annotations.filter (fun b => b.id ≠ hid) = l₁ ++ l₂ := by
      rw [hsplit, ← hid']
      exact filter_ne_id_append l₁ l₂ a (by rw [← hsplit]; exact hnd)
    simp only [ne_eq, decide_not] at hfil
    by_cases hsel : s.selectedId = some hid <;>
      simp [onPointerDown, hb, ht, hh, hsel, pushHistory, hfil]
  · intro hs hmem hnd
    obtain ⟨a, ha, hid'⟩ := hmem
    obtain ⟨l₁, l₂, hsplit⟩ := List.append_of_mem ha
    refine ⟨l₁, a, l₂, hsplit, hid', ?_⟩
    have hfil : s.annotations.filter (fun b => b.id ≠ sid) = l₁ ++ l₂ := by
      rw [hsplit, ← hid']
      exact filter_ne_id_append l₁ l₂ a (by rw [← hsplit]; exact hnd)
    simp only [ne_eq, decide_not] at hfil
    simp [removeSelected, hs, pushHistory, hfil]

/-- A session with three committed annotations and `annB` selected. -/
def selectedBState : EditorState := { threeAnnState with selectedId := some "a2" }

/-- Witness for C10: Delete Selected on `annB` removes exactly `annB`,
leaving `annA` and `annC` in order. -/
theorem delete_removes_exactly_one_witness :
    ∃ l₁ a l₂, selectedBState.annotations = l₁ ++ a :: l₂ ∧
      Annotation.id a = "a2" ∧
      (removeSelected selectedBState).annotations = l₁ ++ l₂ :=
  (delete_removes_exactly_one selectedBState ⟨0, 0, 100, 100⟩ 0 0 0 0 "f" "h" "a2").2
    rfl ⟨annB, by simp [selectedBState, threeAnnState, pushHistory, annB], rfl⟩
    (by simp [selectedBState, threeAnnState, pushHistory, initialState,
      annA, annB, annC, Annotation.id])

end CaseAnnotations
